import Mathlib

/- Shallow embedding of the session feature-extraction and event-stream
normalization pipeline of the housing-services analytics repository
(func_blocks_analysis/src/data_preprocessing.py and
func_blocks_analysis/src/fb2/funnels/funnel_features_extractor.py).

Events are rows of one in-memory table.  The int32 columns of the source
are modelled as unbounded Int (no computation in the pipeline relies on
wrap-around), timestamps as whole seconds (Nat).  pandas
sort_values(by=[global_session_id, event_time]) is modelled by a stable
insertion sort on the same key; all claims about ordering only use rows
whose sort keys are pairwise comparable, so stability questions do not
affect any statement below. -/

/-- One event row of the merged table.  Field names follow the source
columns: device_id = "Идентификатор устройства", session_num =
"Номер сессии в рамках устройства", event_time = "Дата и время события"
(whole seconds), then screen = "Экран", functional = "Функционал",
action = "Действие", and the numeric columns duration_seconds,
click_count, dbl_duration_seconds, dbl_count. -/
structure Row where
  device_id : Nat
  session_num : Nat
  global_session_id : Nat
  event_time : Nat
  screen : String
  functional : String
  action : String
  duration_seconds : Int
  click_count : Int
  dbl_duration_seconds : Int
  dbl_count : Int
deriving DecidableEq, Repr

/-- The sentinel action value "Не указано" used throughout the source. -/
def not_specified : String := "Не указано"

/-- Stable insertion of `a` into `l`: `a` goes before the first element
that is not strictly below it. -/
def ins {α : Type} (lt : α → α → Bool) (a : α) : List α → List α
  | [] => [a]
  | b :: l => if lt b a then b :: ins lt a l else a :: b :: l

/-- Stable insertion sort; models pandas sort_values on the given key. -/
def insertion_sort {α : Type} (lt : α → α → Bool) (l : List α) : List α :=
  l.foldr (ins lt) []

/-- Strict lexicographic order on (global_session_id, event_time), the key
of every sort_values call in the pipeline. -/
def row_lt (a b : Row) : Bool :=
  decide (a.global_session_id < b.global_session_id) ||
    (decide (a.global_session_id = b.global_session_id) &&
      decide (a.event_time < b.event_time))

/-- sort_values(by=[global_session_id, event_time], ascending=[True, True]). -/
def sort_rows (l : List Row) : List Row := insertion_sort row_lt l

/-- Strict lexicographic order on (device id, device-local session number). -/
def pair_lt (p q : Nat × Nat) : Bool :=
  decide (p.1 < q.1) || (decide (p.1 = q.1) && decide (p.2 < q.2))

/-- Strict order on session ids (for the sorted group-by keys). -/
def nat_lt (a b : Nat) : Bool := decide (a < b)

/-- The (device id, device-local session number) composite key of a row. -/
def session_pair (r : Row) : Nat × Nat := (r.device_id, r.session_num)

/-- Position of the first occurrence of `p` in a list of pairs. -/
def pair_index (p : Nat × Nat) : List (Nat × Nat) → Nat
  | [] => 0
  | q :: l => if p = q then 0 else pair_index p l + 1

/-- drop_duplicates over the two key columns followed by
sort_values ascending: the distinct (device, session-number) pairs in
ascending lexicographic order. -/
def unique_sessions (l : List Row) : List (Nat × Nat) :=
  insertion_sort pair_lt (l.map session_pair).dedup

/-- The global session id assigned to a pair: 1-based rank of the pair in
the sorted distinct-pair table (`range(1, len(unique_sessions) + 1)`). -/
def global_sid (l : List Row) (p : Nat × Nat) : Nat :=
  pair_index p (unique_sessions l) + 1

/-- DataPreprocessor.add_global_session_id: annotate every event with the
id of its pair via the left merge, then re-sort the table by
(global_session_id, event_time). -/
def add_global_session_id (l : List Row) : List Row :=
  sort_rows (l.map (fun r =>
    { r with global_session_id := global_sid l (session_pair r) }))

/-- Per-row durations on an already sorted table: each row receives the
gap to the next row of the same session (groupby(...).shift(-1)), the
last row of a session receives 0 (fillna(0)). -/
def set_durations : List Row → List Row
  | [] => []
  | [r] => [{ r with duration_seconds := 0 }]
  | r :: s :: rest =>
    (if r.global_session_id = s.global_session_id then
       { r with duration_seconds := (s.event_time : Int) - (r.event_time : Int) }
     else { r with duration_seconds := 0 }) :: set_durations (s :: rest)

/-- DataPreprocessor.calculate_event_duration: sort by
(global_session_id, event_time), then compute next-event gaps. -/
def calculate_event_duration (l : List Row) : List Row :=
  set_durations (sort_rows l)

/-- Total version of "last element of the nonempty list a :: l". -/
def last_row (a : Row) : List Row → Row
  | [] => a
  | b :: l => last_row b l

/-- The comparison key of the run-collapse pass: session id plus the
three columns Экран, Функционал, Действие. -/
def run_key (r : Row) : Nat × String × String × String :=
  (r.global_session_id, r.screen, r.functional, r.action)

/-- Two adjacent rows belong to the same duplicate group iff they agree
on the comparison key and the session (is_duplicate / new_group logic). -/
def same_run (a b : Row) : Bool := decide (run_key a = run_key b)

/-- Grouping of a list into maximal runs of adjacent rows related by `R`
(the cumsum over new_group flags).  Every group is represented as its
head plus the remaining members, so groups are nonempty by construction. -/
def group_runs (R : Row → Row → Bool) : List Row → List (Row × List Row)
  | [] => []
  | a :: l =>
    match group_runs R l with
    | [] => [(a, [])]
    | (b, g) :: gs =>
      if R a b then (a, b :: g) :: gs else (a, []) :: (b, g) :: gs

/-- is_meaningful_action: Действие differs from the sentinel. -/
def is_meaningful (r : Row) : Bool := !(decide (r.action = not_specified))

/-- The one row kept for a duplicate run a :: g: the last member, with
duration_seconds = sum over the whole run, click_count = number of
meaningful members clipped below at 1, dbl_duration_seconds = summed
duration of the removed members (all but the last), dbl_count = number
of removed members. -/
def collapse_run (a : Row) (g : List Row) : Row :=
  { last_row a g with
    duration_seconds := ((a :: g).map Row.duration_seconds).sum
    click_count := max (((a :: g).filter is_meaningful).length : Int) 1
    dbl_duration_seconds := (((a :: g).dropLast).map Row.duration_seconds).sum
    dbl_count := ((a :: g).length : Int) - 1 }

/-- DataPreprocessor.remove_consecutive_duplicates_with_clicks: sort,
group into maximal runs of equal (session, Экран, Функционал, Действие),
keep one aggregated row per run. -/
def remove_consecutive_duplicates_with_clicks (l : List Row) : List Row :=
  (group_runs same_run (sort_rows l)).map (fun p => collapse_run p.1 p.2)

/-- Adjacent rows belong to the same screen run iff they agree on session
and Экран (prev_screen / screen_changed logic). -/
def same_screen_run (a b : Row) : Bool :=
  decide (a.global_session_id = b.global_session_id) &&
    decide (a.screen = b.screen)

/-- Add `extra` seconds to the duration of the first row of a list. -/
def add_to_first (extra : Int) : List Row → List Row
  | [] => []
  | r :: rest =>
    { r with duration_seconds := r.duration_seconds + extra } :: rest

/-- Treatment of one screen run a :: g in collapse_intermediate_screens:
runs of length one are skipped, runs with no sentinel member or no
meaningful member are left unchanged, otherwise the sentinel members are
dropped and their summed duration is added to the first meaningful row. -/
def screen_group_process (a : Row) (g : List Row) : List Row :=
  let run := a :: g
  if run.length < 2 then run
  else
    let sentinel_rows := run.filter (fun r => decide (r.action = not_specified))
    let meaningful_rows := run.filter is_meaningful
    if sentinel_rows.isEmpty || meaningful_rows.isEmpty then run
    else add_to_first (sentinel_rows.map Row.duration_seconds).sum meaningful_rows

/-- DataPreprocessor.collapse_intermediate_screens: sort, group into
maximal same-screen runs per session, process each run. -/
def collapse_intermediate_screens (l : List Row) : List Row :=
  (group_runs same_screen_run (sort_rows l)).flatMap
    (fun p => screen_group_process p.1 p.2)

/-- One typed action of the taxonomy document, with its optional step. -/
structure ActionObj where
  action : String
  step : Option Int
deriving DecidableEq, Repr

/-- One (screen, functional) group of a taxonomy block with its five
typed action lists. -/
structure ActionGroup where
  screen : String
  functional : String
  regular_actions : List ActionObj
  cancel_actions : List ActionObj
  exit_actions : List ActionObj
  success_review : List ActionObj
  success_actions : List ActionObj
deriving DecidableEq, Repr

/-- One functional block of the taxonomy document. -/
structure Block where
  name : String
  groups : List ActionGroup
deriving DecidableEq, Repr

/-- Python dict lookup where the last inserted binding for a key wins. -/
def dict_last {β : Type} (entries : List ((String × String × String) × β))
    (k : String × String × String) : Option β :=
  (entries.reverse.find? (fun e => decide (e.1 = k))).map Prod.snd

/-- Insertion sequence of FunnelFeaturesExtractor._build_action_lookup for
the action_to_block dict: for every block, group, and action object of
the four lists regular_actions, cancel_actions, exit_actions,
success_actions, bind the triple to (block name, step or 0). -/
def block_entries (blocks : List Block) :
    List ((String × String × String) × String × Int) :=
  blocks.flatMap (fun b => b.groups.flatMap (fun g =>
    (g.regular_actions ++ g.cancel_actions ++ g.exit_actions ++
        g.success_actions).map
      (fun a => ((g.screen, g.functional, a.action), (b.name, a.step.getD 0)))))

/-- Insertion sequence for the success_actions dict. -/
def success_entries (blocks : List Block) :
    List ((String × String × String) × String) :=
  blocks.flatMap (fun b => b.groups.flatMap (fun g =>
    g.success_actions.map (fun a => ((g.screen, g.functional, a.action), b.name))))

/-- Insertion sequence for the review_actions dict (built from the
success_review lists). -/
def review_entries (blocks : List Block) :
    List ((String × String × String) × String) :=
  blocks.flatMap (fun b => b.groups.flatMap (fun g =>
    g.success_review.map (fun a => ((g.screen, g.functional, a.action), b.name))))

/-- The block-membership lookup table: triple ↦ (block name, step). -/
def action_to_block (blocks : List Block) (k : String × String × String) :
    Option (String × Int) :=
  dict_last (block_entries blocks) k

/-- The success-type lookup table: triple ↦ block name. -/
def success_lookup (blocks : List Block) (k : String × String × String) :
    Option String :=
  dict_last (success_entries blocks) k

/-- The review-type lookup table: triple ↦ block name. -/
def review_lookup (blocks : List Block) (k : String × String × String) :
    Option String :=
  dict_last (review_entries blocks) k

/-- The (Экран, Функционал, Действие) triple of an event row. -/
def row_triple (r : Row) : String × String × String :=
  (r.screen, r.functional, r.action)

/-- _block_name of a row: the block its triple maps to, if any. -/
def block_of (blocks : List Block) (r : Row) : Option String :=
  (action_to_block blocks (row_triple r)).map Prod.fst

/-- _step of a row (0 when the triple is unmapped, as in the source). -/
def step_of (blocks : List Block) (r : Row) : Int :=
  ((action_to_block blocks (row_triple r)).map Prod.snd).getD 0

/-- _is_success marker of a row. -/
def is_success_row (blocks : List Block) (r : Row) : Bool :=
  (success_lookup blocks (row_triple r)).isSome

/-- _is_review marker of a row. -/
def is_review_row (blocks : List Block) (r : Row) : Bool :=
  (review_lookup blocks (row_triple r)).isSome

/-- The eight per-(session, block) rollups of the feature table. -/
structure BlockMetrics where
  count : Int
  max_step : Int
  success_count : Int
  review_count : Int
  dur_sec : Int
  click_count : Int
  dbl_dur_sec : Int
  dbl_count : Int
deriving DecidableEq, Repr

/-- The rows of session `s` that map to block `bname` (the groupby group
of df_with_blocks for that session and block). -/
def block_rows (blocks : List Block) (df : List Row) (s : Nat)
    (bname : String) : List Row :=
  df.filter (fun r =>
    decide (r.global_session_id = s) && decide (block_of blocks r = some bname))

/-- Maximum of a nonempty collection given as head plus tail. -/
def int_max_list (x : Int) (l : List Int) : Int := l.foldl max x

/-- The aggregated metrics of one (session, block) cell after the pivot
and the fill of untouched cells: sessions that never touch the block get
0 on every metric and -1 on max_step, never a missing value. -/
def block_metrics (blocks : List Block) (df : List Row) (s : Nat)
    (bname : String) : BlockMetrics :=
  match block_rows blocks df s bname with
  | [] => ⟨0, -1, 0, 0, 0, 0, 0, 0⟩
  | x :: xs =>
    { count := ((x :: xs).length : Int)
      max_step := int_max_list (step_of blocks x) (xs.map (step_of blocks))
      success_count := (((x :: xs).filter (is_success_row blocks)).length : Int)
      review_count := (((x :: xs).filter (is_review_row blocks)).length : Int)
      dur_sec := ((x :: xs).map Row.duration_seconds).sum
      click_count := ((x :: xs).map Row.click_count).sum
      dbl_dur_sec := ((x :: xs).map Row.dbl_duration_seconds).sum
      dbl_count := ((x :: xs).map Row.dbl_count).sum }

/-- The distinct global session ids of the event stream in ascending
order (pandas groupby sorts its keys). -/
def session_ids (df : List Row) : List Nat :=
  insertion_sort nat_lt (df.map Row.global_session_id).dedup

/-- Placeholder row (never observed by any theorem below: first_event is
only read for sessions that do have rows). -/
def default_row : Row := ⟨0, 0, 0, 0, "", "", "", 0, 0, 0, 0⟩

/-- The first chronological row of a session, source of the passthrough
context columns (the agg "first" over the time-sorted frame). -/
def first_event (df : List Row) (s : Nat) : Row :=
  match sort_rows (df.filter (fun r => decide (r.global_session_id = s))) with
  | [] => default_row
  | r :: _ => r

/-- One output row of FunnelFeaturesExtractor.transform: the session id,
the passthrough context columns (taken from the first chronological
event), the whole-session duration, and one BlockMetrics record per
taxonomy block. -/
structure FeatureRow where
  global_session_id : Nat
  context_event : Row
  sess_dur_sec : Int
  features : List (String × BlockMetrics)
deriving DecidableEq, Repr

/-- The feature row of one session. -/
def feature_row (blocks : List Block) (df : List Row) (s : Nat) : FeatureRow :=
  { global_session_id := s
    context_event := first_event df s
    sess_dur_sec :=
      ((df.filter (fun r => decide (r.global_session_id = s))).map
        Row.duration_seconds).sum
    features := blocks.map (fun b => (b.name, block_metrics blocks df s b.name)) }

/-- FunnelFeaturesExtractor.transform: one aggregated row per distinct
global session id of the input stream. -/
def funnel_transform (blocks : List Block) (df : List Row) : List FeatureRow :=
  (session_ids df).map (feature_row blocks df)

/-- One input row of add_user_cohort_status: the device id and the
calendar month of the event timestamp (none models an unparseable
timestamp, dropped by the dropna of the month-set computation). -/
structure CohortEvent where
  device_id : Nat
  event_month : Option Nat
deriving DecidableEq, Repr

/-- The set of active months of a device (as a list; only membership of
9 and 10 is ever queried). -/
def user_months (df : List CohortEvent) (d : Nat) : List Nat :=
  (df.filter (fun r => decide (r.device_id = d))).filterMap CohortEvent.event_month

/-- The (is_lost, is_stay, is_new) classification of one device from its
active months, following the four-branch if of the source. -/
def cohort_status (df : List CohortEvent) (d : Nat) : Bool × Bool × Bool :=
  let months := user_months df d
  let has_september := months.contains 9
  let has_october := months.contains 10
  if has_september && !has_october then (true, false, false)
  else if has_september && has_october then (false, true, false)
  else if !has_september && has_october then (false, false, true)
  else (false, false, false)

/-- DataPreprocessor.add_user_cohort_status: broadcast the per-device
flags to every row of the device. -/
def add_user_cohort_status (df : List CohortEvent) :
    List (CohortEvent × (Bool × Bool × Bool)) :=
  df.map (fun r => (r, cohort_status df r.device_id))

/-- The exceptions relevant to add_global_session_id: pandas raises
KeyError from bracket selection of absent columns, the explicit guards of
the source raise ValueError. -/
inductive PdError where
  | keyError
  | valueError
deriving DecidableEq, Repr

/-- The schema-level view of merged_df: column names and row count. -/
structure PDataFrame where
  cols : List String
  nrows : Nat
deriving DecidableEq, Repr

/-- Column name "Идентификатор устройства". -/
def device_col : String := "Идентификатор устройства"

/-- Column name "Номер сессии в рамках устройства". -/
def session_col : String := "Номер сессии в рамках устройства"

/-- df[[c1, ..., cn]]: pandas raises KeyError when any requested column
is absent. -/
def select_columns (df : PDataFrame) (cs : List String) :
    Except PdError PDataFrame :=
  if cs.all (fun c => df.cols.contains c) then Except.ok ⟨cs, df.nrows⟩
  else Except.error PdError.keyError

/-- Control flow of DataPreprocessor.add_global_session_id at the schema
level: the only explicit guard raises ValueError when merged_df is not
loaded or empty; the very next statement selects the two key columns,
which raises KeyError when one is absent; otherwise the method succeeds
and appends the global_session_id column. -/
def add_global_session_id_run (df : Option PDataFrame) :
    Except PdError PDataFrame :=
  match df with
  | none => Except.error PdError.valueError
  | some d =>
    if d.nrows = 0 then Except.error PdError.valueError
    else
      match select_columns d [device_col, session_col] with
      | Except.error e => Except.error e
      | Except.ok _ => Except.ok ⟨d.cols ++ ["global_session_id"], d.nrows⟩

/-- The target of remove_trailing_empty_screens: the exact triple
(Еще, Открытие экрана, Не указано). -/
def trailing_triple (r : Row) : Bool :=
  decide (r.screen = "Еще") && decide (r.functional = "Открытие экрана") &&
    decide (r.action = "Не указано")

/-- Single pass over the sorted table removing exactly the rows that are
last of their session and carry the target triple (is_last_in_session is
detected by comparing with the session id of the successor row). -/
def drop_trailing : List Row → List Row
  | [] => []
  | [r] => if trailing_triple r then [] else [r]
  | r :: s :: rest =>
    (if !(decide (r.global_session_id = s.global_session_id)) &&
        trailing_triple r
     then [] else [r]) ++ drop_trailing (s :: rest)

/-- DataPreprocessor.remove_trailing_empty_screens: sort, then drop the
flagged rows (finding none is a plain no-op). -/
def remove_trailing_empty_screens (l : List Row) : List Row :=
  drop_trailing (sort_rows l)

/-- Each row of `l` paired with its successor row, if any. -/
def with_next (l : List Row) : List (Row × Option Row) :=
  l.zip ((l.drop 1).map some ++ [none])

/-- Survival predicate of the claim, on a row and its successor: a row is
removed exactly when it closes its session (no successor, or the
successor belongs to another session) and carries the target triple. -/
def keep_row (p : Row × Option Row) : Bool :=
  !((match p.2 with
     | none => true
     | some s => !(decide (p.1.global_session_id = s.global_session_id))) &&
    trailing_triple p.1)

/-- Declarative description of remove_trailing_empty_screens on a sorted
table, used to compare the recursive pass against the claim. -/
def trailing_removal_spec (l : List Row) : List Row :=
  ((with_next l).filter keep_row).map Prod.fst

/-- Sortedness with respect to a strict comparison: no later element is
strictly below an earlier one. -/
def sorted_by {α : Type} (lt : α → α → Bool) (l : List α) : Prop :=
  List.Pairwise (fun a b => lt b a = false) l

instance {α : Type} (lt : α → α → Bool) (l : List α) :
    Decidable (sorted_by lt l) :=
  inferInstanceAs (Decidable (List.Pairwise (fun a b => lt b a = false) l))

/-- Strict chronological order between two rows. -/
def time_lt (x y : Row) : Prop := x.event_time < y.event_time

instance : IsTrans Row time_lt := ⟨fun _ _ _ h1 h2 => Nat.lt_trans h1 h2⟩

instance (x y : Row) : Decidable (time_lt x y) :=
  inferInstanceAs (Decidable (x.event_time < y.event_time))

/-- Helper for building concrete example rows. -/
def mk_row (d sn gs t : Nat) (sc fu ac : String) (dur : Int) : Row :=
  ⟨d, sn, gs, t, sc, fu, ac, dur, 0, 0, 0⟩

/-- First event of the concrete scenario "10:00:00, 10:00:05, 10:00:12". -/
def c2_head : Row := mk_row 7 1 1 36000 "Главная" "Открытие экрана" "Тап" 0

/-- Remaining events of the concrete duration scenario. -/
def c2_tail : List Row :=
  [mk_row 7 1 1 36005 "Главная" "Открытие экрана" "Тап" 0,
   mk_row 7 1 1 36012 "Главная" "Открытие экрана" "Тап" 0]

/-- A two-member duplicate run (same screen, functional, action). -/
def c4_a : Row := mk_row 7 1 1 0 "Еще" "Открытие экрана" "Не указано" 3

/-- Second member of the duplicate run. -/
def c4_b : Row := mk_row 7 1 1 2 "Еще" "Открытие экрана" "Не указано" 2

/-- An event with a different action, closing the run. -/
def c4_c : Row := mk_row 7 1 1 5 "Еще" "Открытие экрана" "Тап на кнопку" 5

/-- One session holding a duplicate run of length two plus one further
event. -/
def c4_rows : List Row := [c4_a, c4_b, c4_c]

/-- Two rows with identical (session, screen, functional, action) key:
the smallest table on which a run is actually collapsed. -/
def c5_rows : List Row :=
  [mk_row 7 1 1 0 "Еще" "Открытие экрана" "Тап" 5,
   mk_row 7 1 1 1 "Еще" "Открытие экрана" "Тап" 3]

/-- First sentinel row of a same-screen run. -/
def c6_a : Row := mk_row 7 1 1 0 "Новая заявка" "Открытие экрана" "Не указано" 5

/-- Second sentinel row of the same-screen run. -/
def c6_b : Row := mk_row 7 1 1 5 "Новая заявка" "Открытие экрана" "Не указано" 3

/-- Meaningful row closing the same-screen run. -/
def c6_c : Row := mk_row 7 1 1 8 "Новая заявка" "Ввод данных" "Тап на кнопку" 10

/-- One session whose three events share a screen: two sentinel rows
followed by one meaningful row. -/
def c6_rows : List Row := [c6_a, c6_b, c6_c]

/-- Events of two devices with duplicated and unordered session pairs. -/
def c1_rows : List Row :=
  [mk_row 9 1 0 50 "Главная" "Открытие экрана" "Тап" 0,
   mk_row 5 2 0 10 "Главная" "Открытие экрана" "Тап" 0,
   mk_row 5 1 0 0 "Главная" "Открытие экрана" "Тап" 0,
   mk_row 5 1 0 3 "Заявки" "Просмотр списка" "Тап" 0]

/-- A regular action of the concrete taxonomy fixture. -/
def c7_regular : ActionObj := { action := "Тап на кнопку", step := some 1 }

/-- A success_review action of the concrete taxonomy fixture. -/
def c7_review : ActionObj := { action := "Оценка выполнена", step := some 5 }

/-- One (screen, functional) group with one regular action and one
success_review action. -/
def c7_group : ActionGroup :=
  { screen := "Новая заявка", functional := "Оценка",
    regular_actions := [c7_regular], cancel_actions := [], exit_actions := [],
    success_review := [c7_review], success_actions := [] }

/-- One taxonomy block holding the fixture group. -/
def c7_block : Block := { name := "Создание заявки", groups := [c7_group] }

/-- A one-block taxonomy document. -/
def c7_blocks : List Block := [c7_block]

/-- Two sessions: one event mapped to the fixture block, one unmapped. -/
def c3_df : List Row :=
  [mk_row 7 1 1 0 "Новая заявка" "Оценка" "Тап на кнопку" 4,
   mk_row 7 2 2 0 "Прочее" "Прочее" "Не указано" 2]

/-- Devices active in month 9 only, months 9 and 10, month 10 only, and
in neither reference month (one row with an unparseable timestamp). -/
def c8_df : List CohortEvent :=
  [⟨1, some 9⟩, ⟨2, some 9⟩, ⟨2, some 10⟩, ⟨3, some 10⟩, ⟨4, some 8⟩,
   ⟨4, none⟩]

/-- Two sessions: the first ends with the target triple, the second holds
the target triple in non-final position. -/
def c10_rows : List Row :=
  [mk_row 7 1 1 0 "Заявки" "Просмотр списка" "Тап на заявку" 5,
   mk_row 7 1 1 5 "Еще" "Открытие экрана" "Не указано" 0,
   mk_row 7 2 2 0 "Еще" "Открытие экрана" "Не указано" 3,
   mk_row 7 2 2 3 "Главная" "Открытие экрана" "Тап" 0]

theorem ins_perm {α : Type} (lt : α → α → Bool) (a : α) (l : List α) :
    (ins lt a l).Perm (a :: l) := by
  induction l with
  | nil => simp [ins]
  | cons b l ih =>
    simp only [ins]
    split
    · exact (ih.cons b).trans (List.Perm.swap a b l)
    · exact List.Perm.refl _

theorem insertion_sort_perm {α : Type} (lt : α → α → Bool) (l : List α) :
    (insertion_sort lt l).Perm l := by
  induction l with
  | nil => exact List.Perm.refl _
  | cons a l ih => exact (ins_perm lt a (insertion_sort lt l)).trans (ih.cons a)

theorem mem_insertion_sort {α : Type} (lt : α → α → Bool) (l : List α) (a : α) :
    a ∈ insertion_sort lt l ↔ a ∈ l :=
  (insertion_sort_perm lt l).mem_iff

theorem length_insertion_sort {α : Type} (lt : α → α → Bool) (l : List α) :
    (insertion_sort lt l).length = l.length :=
  (insertion_sort_perm lt l).length_eq

theorem ins_sorted {α : Type} (lt : α → α → Bool)
    (hneg : ∀ a b c : α, lt b a = false → lt c b = false → lt c a = false)
    (hasym : ∀ a b : α, lt a b = true → lt b a = false)
    (a : α) (l : List α) (h : sorted_by lt l) : sorted_by lt (ins lt a l) := by
  induction l with
  | nil => simp [ins, sorted_by]
  | cons b l ih =>
    rcases List.pairwise_cons.mp h with ⟨hb, hl⟩
    by_cases hba : lt b a = true
    · have : ins lt a (b :: l) = b :: ins lt a l := by simp [ins, hba]
      rw [this]
      refine List.pairwise_cons.mpr ⟨?_, ih hl⟩
      intro x hx
      rcases List.mem_cons.mp ((ins_perm lt a l).mem_iff.mp hx) with hxa | hxl
      · rw [hxa]; exact hasym b a hba
      · exact hb x hxl
    · have hba' : lt b a = false := by revert hba; cases lt b a <;> simp
      have : ins lt a (b :: l) = a :: b :: l := by simp [ins, hba']
      rw [this]
      refine List.pairwise_cons.mpr ⟨?_, h⟩
      intro x hx
      rcases List.mem_cons.mp hx with hxb | hxl
      · subst hxb; exact hba'
      · exact hneg a b x hba' (hb x hxl)

theorem insertion_sort_sorted {α : Type} (lt : α → α → Bool)
    (hneg : ∀ a b c : α, lt b a = false → lt c b = false → lt c a = false)
    (hasym : ∀ a b : α, lt a b = true → lt b a = false)
    (l : List α) : sorted_by lt (insertion_sort lt l) := by
  induction l with
  | nil => simp [insertion_sort, sorted_by]
  | cons a l ih => exact ins_sorted lt hneg hasym a (insertion_sort lt l) ih

theorem insertion_sort_of_sorted {α : Type} (lt : α → α → Bool) (l : List α)
    (h : sorted_by lt l) : insertion_sort lt l = l := by
  induction l with
  | nil => rfl
  | cons a l ih =>
    rcases List.pairwise_cons.mp h with ⟨ha, hl⟩
    have step : insertion_sort lt (a :: l) = ins lt a (insertion_sort lt l) := rfl
    rw [step, ih hl]
    cases l with
    | nil => rfl
    | cons b l2 =>
      have hba : lt b a = false := ha b (List.mem_cons_self b l2)
      simp [ins, hba]

theorem row_lt_asym (a b : Row) (h : row_lt a b = true) : row_lt b a = false := by
  simp only [row_lt, Bool.or_eq_true, Bool.and_eq_true, decide_eq_true_eq] at h
  simp only [row_lt, Bool.or_eq_false_iff, Bool.and_eq_false_iff,
    decide_eq_false_iff_not]
  omega

theorem row_lt_neg_trans (a b c : Row) (h1 : row_lt b a = false)
    (h2 : row_lt c b = false) : row_lt c a = false := by
  simp only [row_lt, Bool.or_eq_false_iff, Bool.and_eq_false_iff,
    decide_eq_false_iff_not] at h1 h2 ⊢
  omega

theorem pair_lt_asym (a b : Nat × Nat) (h : pair_lt a b = true) :
    pair_lt b a = false := by
  simp only [pair_lt, Bool.or_eq_true, Bool.and_eq_true, decide_eq_true_eq] at h
  simp only [pair_lt, Bool.or_eq_false_iff, Bool.and_eq_false_iff,
    decide_eq_false_iff_not]
  omega

theorem pair_lt_neg_trans (a b c : Nat × Nat) (h1 : pair_lt b a = false)
    (h2 : pair_lt c b = false) : pair_lt c a = false := by
  simp only [pair_lt, Bool.or_eq_false_iff, Bool.and_eq_false_iff,
    decide_eq_false_iff_not] at h1 h2 ⊢
  omega

theorem nat_lt_asym (a b : Nat) (h : nat_lt a b = true) : nat_lt b a = false := by
  simp only [nat_lt, decide_eq_true_eq] at h
  simp only [nat_lt, decide_eq_false_iff_not]
  omega

theorem nat_lt_neg_trans (a b c : Nat) (h1 : nat_lt b a = false)
    (h2 : nat_lt c b = false) : nat_lt c a = false := by
  simp only [nat_lt, decide_eq_false_iff_not] at h1 h2 ⊢
  omega

theorem pair_index_lt {p : Nat × Nat} {ps : List (Nat × Nat)} (h : p ∈ ps) :
    pair_index p ps < ps.length := by
  induction ps with
  | nil => cases h
  | cons q l ih =>
    by_cases hpq : p = q
    · simp [pair_index, hpq]
    · rcases List.mem_cons.mp h with h1 | h2
      · exact absurd h1 hpq
      · simp only [pair_index, if_neg hpq, List.length_cons]
        exact Nat.succ_lt_succ (ih h2)

theorem pair_index_get {ps : List (Nat × Nat)} (hnd : ps.Nodup) (i : Nat)
    (hi : i < ps.length) : pair_index (ps.get ⟨i, hi⟩) ps = i := by
  induction ps generalizing i with
  | nil => cases hi
  | cons q l ih =>
    rcases List.nodup_cons.mp hnd with ⟨hq, hl⟩
    cases i with
    | zero => simp [pair_index]
    | succ j =>
      have hj : j < l.length := Nat.lt_of_succ_lt_succ hi
      have hmem : l.get ⟨j, hj⟩ ∈ l := l.get_mem j hj
      have hne : l.get ⟨j, hj⟩ ≠ q := fun he => hq (he ▸ hmem)
      simp only [List.get_cons_succ, pair_index, if_neg hne]
      exact congrArg (· + 1) (ih hl j hj)

theorem pair_index_inj {p q : Nat × Nat} {ps : List (Nat × Nat)}
    (hp : p ∈ ps) (hq : q ∈ ps)
    (h : pair_index p ps = pair_index q ps) : p = q := by
  induction ps with
  | nil => cases hp
  | cons r l ih =>
    by_cases hpr : p = r <;> by_cases hqr : q = r
    · exact hpr.trans hqr.symm
    · rw [hpr] at h
      simp [pair_index, hqr] at h
    · rw [hqr] at h
      simp [pair_index, hpr] at h
    · simp only [pair_index, if_neg hpr, if_neg hqr, Nat.add_right_cancel_iff] at h
      rcases List.mem_cons.mp hp with h1 | h2
      · exact absurd h1 hpr
      rcases List.mem_cons.mp hq with h3 | h4
      · exact absurd h3 hqr
      exact ih h2 h4 h

theorem unique_sessions_nodup (l : List Row) : (unique_sessions l).Nodup :=
  (insertion_sort_perm pair_lt (l.map session_pair).dedup).symm.nodup
    (List.nodup_dedup (l.map session_pair))

theorem mem_unique_sessions (l : List Row) (p : Nat × Nat) :
    p ∈ unique_sessions l ↔ ∃ r ∈ l, session_pair r = p := by
  rw [unique_sessions, mem_insertion_sort, List.mem_dedup, List.mem_map]

/-- Claim C1: add_global_session_id keeps the row count, gives every row a
global session id in 1..N (N the number of distinct (device id, session
number) pairs), two rows receive equal ids iff they share the pair, and
the distinct pairs, listed in ascending lexicographic order, receive the
ids 1..N in that order. -/
theorem add_global_session_id_bijection (l : List Row) :
    (add_global_session_id l).length = l.length ∧
    (∀ r ∈ add_global_session_id l,
      1 ≤ r.global_session_id ∧
        r.global_session_id ≤ (unique_sessions l).length) ∧
    (∀ r1 ∈ add_global_session_id l, ∀ r2 ∈ add_global_session_id l,
      (r1.global_session_id = r2.global_session_id ↔
        session_pair r1 = session_pair r2)) ∧
    (∀ i, (hi : i < (unique_sessions l).length) →
      global_sid l ((unique_sessions l).get ⟨i, hi⟩) = i + 1) ∧
    sorted_by pair_lt (unique_sessions l) ∧
    (unique_sessions l).Nodup := by
  have hmem : ∀ r ∈ add_global_session_id l, ∃ e ∈ l,
      r = { e with global_session_id := global_sid l (session_pair e) } := by
    intro r hr
    have : r ∈ l.map (fun e =>
        { e with global_session_id := global_sid l (session_pair e) }) :=
      (mem_insertion_sort row_lt _ r).mp hr
    rcases List.mem_map.mp this with ⟨e, he, hre⟩
    exact ⟨e, he, hre.symm⟩
  have hpair : ∀ e : Row,
      session_pair { e with global_session_id := global_sid l (session_pair e) } =
        session_pair e := fun e => rfl
  refine ⟨?_, ?_, ?_, ?_, ?_, unique_sessions_nodup l⟩
  · rw [add_global_session_id, sort_rows, length_insertion_sort, List.length_map]
  · intro r hr
    rcases hmem r hr with ⟨e, he, hre⟩
    have hsp : session_pair e ∈ unique_sessions l :=
      (mem_unique_sessions l (session_pair e)).mpr ⟨e, he, rfl⟩
    have hlt := pair_index_lt hsp
    subst hre
    refine ⟨Nat.le_add_left 1 _, ?_⟩
    show global_sid l (session_pair e) ≤ (unique_sessions l).length
    rw [global_sid]
    omega
  · intro r1 h1 r2 h2
    rcases hmem r1 h1 with ⟨e1, he1, hr1⟩
    rcases hmem r2 h2 with ⟨e2, he2, hr2⟩
    have hp1 : session_pair r1 = session_pair e1 := by
      rw [hr1]; exact hpair e1
    have hp2 : session_pair r2 = session_pair e2 := by
      rw [hr2]; exact hpair e2
    have hg1 : r1.global_session_id = global_sid l (session_pair e1) := by
      rw [hr1]
    have hg2 : r2.global_session_id = global_sid l (session_pair e2) := by
      rw [hr2]
    rw [hp1, hp2, hg1, hg2, global_sid, global_sid]
    constructor
    · intro h
      have hm1 : session_pair e1 ∈ unique_sessions l :=
        (mem_unique_sessions l _).mpr ⟨e1, he1, rfl⟩
      have hm2 : session_pair e2 ∈ unique_sessions l :=
        (mem_unique_sessions l _).mpr ⟨e2, he2, rfl⟩
      exact pair_index_inj hm1 hm2 (Nat.add_right_cancel h)
    · intro h; rw [h]
  · intro i hi
    rw [global_sid, pair_index_get (unique_sessions_nodup l) i hi]
  · exact insertion_sort_sorted pair_lt pair_lt_neg_trans pair_lt_asym _

theorem set_durations_facts (gsid : Nat) (l : List Row) : ∀ (a : Row),
    (∀ r ∈ a :: l, r.global_session_id = gsid) →
    ∃ b bs, set_durations (a :: l) = b :: bs ∧
      (b :: bs).map Row.event_time = (a :: l).map Row.event_time ∧
      List.Chain' (fun x y =>
        x.duration_seconds = (y.event_time : Int) - (x.event_time : Int))
        (b :: bs) ∧
      (last_row b bs).duration_seconds = 0 ∧
      ((b :: bs).map Row.duration_seconds).sum =
        ((last_row a l).event_time : Int) - (a.event_time : Int) := by
  induction l with
  | nil =>
    intro a _
    refine ⟨{ a with duration_seconds := 0 }, [], rfl, rfl, ?_, rfl, ?_⟩
    · simp
    · simp [last_row]
  | cons c l2 ih =>
    intro a hg
    have hac : a.global_session_id = c.global_session_id := by
      rw [hg a (List.mem_cons_self a _), hg c (List.mem_cons_of_mem a
        (List.mem_cons_self c _))]
    have hg2 : ∀ r ∈ c :: l2, r.global_session_id = gsid := by
      intro r hr; exact hg r (List.mem_cons_of_mem a hr)
    rcases ih c hg2 with ⟨b2, bs2, heq, hmap, hchain, hlast, hsum⟩
    have hstep : set_durations (a :: c :: l2) =
        { a with duration_seconds := (c.event_time : Int) - (a.event_time : Int) }
          :: set_durations (c :: l2) := by
      simp [set_durations, hac]
    refine ⟨{ a with duration_seconds :=
        (c.event_time : Int) - (a.event_time : Int) }, b2 :: bs2, ?_, ?_, ?_, ?_, ?_⟩
    · rw [hstep, heq]
    · simp only [List.map_cons] at hmap ⊢
      rw [List.cons.injEq] at hmap ⊢
      exact ⟨rfl, by rw [hmap.1, hmap.2]⟩
    · have hb2 : b2.event_time = c.event_time := by
        simp only [List.map_cons, List.cons.injEq] at hmap
        exact hmap.1
      refine List.chain'_cons.mpr ⟨?_, hchain⟩
      show (c.event_time : Int) - (a.event_time : Int) =
        (b2.event_time : Int) - (a.event_time : Int)
      rw [hb2]
    · show (last_row b2 bs2).duration_seconds = 0
      exact hlast
    · simp only [List.map_cons, List.sum_cons] at hsum ⊢
      show (c.event_time : Int) - (a.event_time : Int) +
        (b2.duration_seconds + (bs2.map Row.duration_seconds).sum) =
        ((last_row c l2).event_time : Int) - (a.event_time : Int)
      omega

/-- Claim C2: after calculate_event_duration, on a session whose events
are in strict chronological order, the duration of every event is the
whole-second gap to the next event of the session, the last event has
duration 0, and the durations sum to (last time − first time). -/
theorem calculate_event_duration_conservation (gsid : Nat) (a : Row)
    (l : List Row) (hg : ∀ r ∈ a :: l, r.global_session_id = gsid)
    (ht : List.Chain' time_lt (a :: l)) :
    ∃ b bs, calculate_event_duration (a :: l) = b :: bs ∧
      (b :: bs).map Row.event_time = (a :: l).map Row.event_time ∧
      List.Chain' (fun x y =>
        x.duration_seconds = (y.event_time : Int) - (x.event_time : Int))
        (b :: bs) ∧
      (last_row b bs).duration_seconds = 0 ∧
      ((b :: bs).map Row.duration_seconds).sum =
        ((last_row a l).event_time : Int) - (a.event_time : Int) := by
  have hpw : List.Pairwise time_lt (a :: l) := List.chain'_iff_pairwise.mp ht
  have hsorted : sorted_by row_lt (a :: l) := by
    refine List.Pairwise.imp_of_mem ?_ hpw
    intro x y hx hy hxy
    have hgx := hg x hx
    have hgy := hg y hy
    have hxy' : x.event_time < y.event_time := hxy
    simp only [row_lt, Bool.or_eq_false_iff, Bool.and_eq_false_iff,
      decide_eq_false_iff_not]
    omega
  have hid : sort_rows (a :: l) = a :: l :=
    insertion_sort_of_sorted row_lt (a :: l) hsorted
  have := set_durations_facts gsid l a hg
  rw [calculate_event_duration, hid]
  exact this

theorem group_runs_flatten (R : Row → Row → Bool) :
    ∀ l : List Row, (group_runs R l).flatMap (fun p => p.1 :: p.2) = l := by
  intro l
  induction l with
  | nil => rfl
  | cons a l ih =>
    cases h : group_runs R l with
    | nil =>
      rw [h] at ih
      simp only [List.flatMap_nil] at ih
      simp [group_runs, h, ← ih]
    | cons p gs =>
      rcases p with ⟨b, g⟩
      rw [h] at ih
      by_cases hab : R a b = true
      · simp only [group_runs, h, hab, if_true]
        simp only [List.flatMap_cons] at ih ⊢
        simp [← ih]
      · have hab' : R a b = false := by revert hab; cases R a b <;> simp
        simp only [group_runs, h, hab', Bool.false_eq_true, if_false]
        simp only [List.flatMap_cons] at ih ⊢
        simp [← ih]

theorem last_row_append (a b : Row) (g : List Row) :
    last_row a (b :: g) = last_row b g := rfl

theorem last_row_mem (a : Row) (g : List Row) : last_row a g ∈ a :: g := by
  induction g generalizing a with
  | nil => exact List.mem_cons_self a []
  | cons b g ih =>
    rw [last_row_append]
    exact List.mem_cons_of_mem a (ih b)

theorem last_row_sublist (a : Row) (g : List Row) :
    List.Sublist [last_row a g] (a :: g) := by
  induction g generalizing a with
  | nil => exact List.Sublist.refl [a]
  | cons b g ih =>
    rw [last_row_append]
    exact (ih b).cons a

theorem group_lasts_sublist (gs : List (Row × List Row)) :
    List.Sublist (gs.map (fun p => last_row p.1 p.2))
      (gs.flatMap (fun p => p.1 :: p.2)) := by
  induction gs with
  | nil => exact List.Sublist.refl []
  | cons p gs ih =>
    simp only [List.map_cons, List.flatMap_cons]
    have : last_row p.1 p.2 :: gs.map (fun p => last_row p.1 p.2) =
        [last_row p.1 p.2] ++ gs.map (fun p => last_row p.1 p.2) := rfl
    rw [this]
    exact List.Sublist.append (last_row_sublist p.1 p.2) ih

theorem group_runs_same_key :
    ∀ l : List Row, ∀ p ∈ group_runs same_run l, ∀ x ∈ p.2,
      run_key x = run_key p.1 := by
  intro l
  induction l with
  | nil => intro p hp; cases hp
  | cons a l ih =>
    intro p hp x hx
    cases h : group_runs same_run l with
    | nil =>
      simp only [group_runs, h] at hp
      rcases List.mem_cons.mp hp with h1 | h1
      · rw [h1] at hx; cases hx
      · cases h1
    | cons q gs =>
      rcases q with ⟨b, g⟩
      by_cases hab : same_run a b = true
      · simp only [group_runs, h, hab, if_true] at hp
        have hkey : run_key a = run_key b := of_decide_eq_true hab
        rcases List.mem_cons.mp hp with h1 | h1
        · rw [h1] at hx
          simp only at hx
          rcases List.mem_cons.mp hx with h2 | h2
          · rw [h1, h2]; exact hkey.symm
          · have := ih ⟨b, g⟩ (h ▸ List.mem_cons_self _ _) x h2
            rw [h1]
            simp only at this ⊢
            rw [this, ← hkey]
        · exact ih p (h ▸ List.mem_cons_of_mem _ h1) x hx
      · have hab' : same_run a b = false := by revert hab; cases same_run a b <;> simp
        simp only [group_runs, h, hab', Bool.false_eq_true, if_false] at hp
        rcases List.mem_cons.mp hp with h1 | h1
        · rw [h1] at hx; cases hx
        · exact ih p (h ▸ h1) x hx

theorem group_runs_last_chain :
    ∀ l : List Row, List.Chain' (fun p q : Row × List Row =>
      same_run (last_row p.1 p.2) (last_row q.1 q.2) = false)
      (group_runs same_run l) := by
  intro l
  induction l with
  | nil => exact List.chain'_nil
  | cons a l ih =>
    cases h : group_runs same_run l with
    | nil => simp [group_runs, h]
    | cons q gs =>
      rcases q with ⟨b, g⟩
      rw [h] at ih
      by_cases hab : same_run a b = true
      · simp only [group_runs, h, hab, if_true]
        cases gs with
        | nil => simp
        | cons q2 gs2 =>
          refine List.chain'_cons.mpr ⟨?_, (List.chain'_cons.mp ih).2⟩
          have hrel := (List.chain'_cons.mp ih).1
          simpa [last_row_append] using hrel
      · have hab' : same_run a b = false := by revert hab; cases same_run a b <;> simp
        simp only [group_runs, h, hab', Bool.false_eq_true, if_false]
        refine List.chain'_cons.mpr ⟨?_, ih⟩
        show same_run (last_row a []) (last_row b g) = false
        have hbg : run_key (last_row b g) = run_key b := by
          rcases List.mem_cons.mp (last_row_mem b g) with h1 | h1
          · rw [h1]
          · exact group_runs_same_key l ⟨b, g⟩ (h ▸ List.mem_cons_self _ _)
              (last_row b g) h1
        have hne : run_key a ≠ run_key b := of_decide_eq_false hab'
        show decide (run_key (last_row a []) = run_key (last_row b g)) = false
        rw [last_row]
        rw [hbg]
        exact decide_eq_false hne

theorem group_runs_singletons :
    ∀ l : List Row, List.Chain' (fun a b => same_run a b = false) l →
      group_runs same_run l = l.map (fun r => (r, [])) := by
  intro l
  induction l with
  | nil => intro _; rfl
  | cons a l ih =>
    intro hch
    have htail := ih ((List.chain'_cons'.mp hch).2)
    cases l with
    | nil => rfl
    | cons b l2 =>
      have hab : same_run a b = false :=
        (List.chain'_cons.mp hch).1
      have hstep : group_runs same_run (a :: b :: l2) =
          match group_runs same_run (b :: l2) with
          | [] => [(a, [])]
          | (c, g) :: gs =>
            if same_run a c then (a, c :: g) :: gs else (a, []) :: (c, g) :: gs := rfl
      rw [hstep, htail]
      simp only [List.map_cons, hab, Bool.false_eq_true, if_false]

theorem collapse_run_key (a : Row) (g : List Row) :
    run_key (collapse_run a g) = run_key (last_row a g) := rfl

theorem row_lt_collapse (p q : Row × List Row) :
    row_lt (collapse_run q.1 q.2) (collapse_run p.1 p.2) =
      row_lt (last_row q.1 q.2) (last_row p.1 p.2) := rfl

theorem rcd_sorted (l : List Row) :
    sorted_by row_lt (remove_consecutive_duplicates_with_clicks l) := by
  have hs : sorted_by row_lt (sort_rows l) :=
    insertion_sort_sorted row_lt row_lt_neg_trans row_lt_asym l
  have hsub := group_lasts_sublist (group_runs same_run (sort_rows l))
  rw [group_runs_flatten same_run (sort_rows l)] at hsub
  have hlasts : List.Pairwise (fun a b => row_lt b a = false)
      ((group_runs same_run (sort_rows l)).map (fun p => last_row p.1 p.2)) :=
    List.Pairwise.sublist hsub hs
  have hpw := List.pairwise_map.mp hlasts
  rw [remove_consecutive_duplicates_with_clicks, sorted_by]
  rw [List.pairwise_map]
  refine hpw.imp ?_
  intro p q h
  rw [row_lt_collapse]
  exact h

theorem rcd_no_adjacent (l : List Row) :
    List.Chain' (fun a b => same_run a b = false)
      (remove_consecutive_duplicates_with_clicks l) := by
  have hch := group_runs_last_chain (sort_rows l)
  rw [remove_consecutive_duplicates_with_clicks]
  rw [List.chain'_map]
  refine hch.imp ?_
  intro p q h
  show decide (run_key (collapse_run p.1 p.2) = run_key (collapse_run q.1 q.2)) = false
  rw [collapse_run_key, collapse_run_key]
  exact h

theorem collapse_run_singleton (r : Row) :
    collapse_run r [] =
      { r with click_count := 1, dbl_duration_seconds := 0, dbl_count := 0 } := by
  cases r with
  | mk d sn gs t sc fu ac dur cc dd dc =>
    by_cases h : ac = not_specified <;>
      simp [collapse_run, last_row, is_meaningful, h]

/-- Counterexample to claim C5 as stated: the run-collapse pass is not
idempotent row-for-row — on a table with one duplicate run of length
two, a second application changes the click_count, dbl_count and
dbl_duration_seconds columns of the surviving row. -/
theorem run_collapse_not_idempotent :
    remove_consecutive_duplicates_with_clicks
        (remove_consecutive_duplicates_with_clicks c5_rows) ≠
      remove_consecutive_duplicates_with_clicks c5_rows := by decide

/-- Claim C5 (amended): the run-collapse pass is idempotent up to the
three derived columns.  A second application keeps the same rows in the
same order with the same identity, time and duration_seconds (no two
adjacent surviving rows share the comparison key, so every group is a
singleton), but it resets and recomputes the derived columns,
setting click_count to 1 and dbl_count and dbl_duration_seconds to 0 on
every row. -/
theorem run_collapse_second_application (l : List Row) :
    remove_consecutive_duplicates_with_clicks
        (remove_consecutive_duplicates_with_clicks l) =
      (remove_consecutive_duplicates_with_clicks l).map
        (fun r => { r with click_count := 1, dbl_duration_seconds := 0,
                           dbl_count := 0 }) := by
  have h1 : sort_rows (remove_consecutive_duplicates_with_clicks l) =
      remove_consecutive_duplicates_with_clicks l :=
    insertion_sort_of_sorted row_lt _ (rcd_sorted l)
  have h2 : group_runs same_run (remove_consecutive_duplicates_with_clicks l) =
      (remove_consecutive_duplicates_with_clicks l).map (fun r => (r, [])) :=
    group_runs_singletons _ (rcd_no_adjacent l)
  conv_lhs => rw [remove_consecutive_duplicates_with_clicks, h1, h2]
  rw [List.map_map]
  refine List.map_congr_left ?_
  intro r _
  exact collapse_run_singleton r

/-- Claim C4: for every maximal run a :: g of consecutive same-key events
produced by the run-collapse grouping of the sorted table, exactly one
row is kept; it carries the identity of the last event of the run, its
duration is the sum over the whole run, dbl_count is the run length
minus one, dbl_duration_seconds is the summed duration of all members
but the last, and click_count is the number of members whose action is
not the sentinel, clipped below at 1.  The groups partition the sorted
table and all members of a run share the comparison key. -/
theorem run_collapse_invariant (l : List Row) (a : Row) (g : List Row)
    (hg : (a, g) ∈ group_runs same_run (sort_rows l)) :
    remove_consecutive_duplicates_with_clicks l =
      (group_runs same_run (sort_rows l)).map (fun p => collapse_run p.1 p.2) ∧
    (group_runs same_run (sort_rows l)).flatMap (fun p => p.1 :: p.2) =
      sort_rows l ∧
    (∀ x ∈ a :: g, run_key x = run_key a) ∧
    collapse_run a g ∈ remove_consecutive_duplicates_with_clicks l ∧
    (collapse_run a g).device_id = (last_row a g).device_id ∧
    (collapse_run a g).session_num = (last_row a g).session_num ∧
    (collapse_run a g).global_session_id = (last_row a g).global_session_id ∧
    (collapse_run a g).event_time = (last_row a g).event_time ∧
    (collapse_run a g).screen = (last_row a g).screen ∧
    (collapse_run a g).functional = (last_row a g).functional ∧
    (collapse_run a g).action = (last_row a g).action ∧
    (collapse_run a g).duration_seconds =
      ((a :: g).map Row.duration_seconds).sum ∧
    (collapse_run a g).dbl_count = ((a :: g).length : Int) - 1 ∧
    (collapse_run a g).dbl_duration_seconds =
      (((a :: g).dropLast).map Row.duration_seconds).sum ∧
    (collapse_run a g).click_count =
      max (((a :: g).filter is_meaningful).length : Int) 1 := by
  refine ⟨rfl, group_runs_flatten same_run (sort_rows l), ?_, ?_, rfl, rfl, rfl,
    rfl, rfl, rfl, rfl, rfl, rfl, rfl, rfl⟩
  · intro x hx
    rcases List.mem_cons.mp hx with h1 | h1
    · rw [h1]
    · exact group_runs_same_key (sort_rows l) (a, g) hg x h1
  · rw [remove_consecutive_duplicates_with_clicks]
    exact List.mem_map.mpr ⟨(a, g), hg, rfl⟩

/-- Witness for C4 at a concrete table: the duplicate run c4_a, c4_b of
c4_rows is a group of the sorted table, and its aggregated survivor row
is in the output of the run-collapse pass. -/
theorem run_collapse_invariant_witness :
    ((c4_a, [c4_b]) ∈ group_runs same_run (sort_rows c4_rows)) ∧
    collapse_run c4_a [c4_b] ∈
      remove_consecutive_duplicates_with_clicks c4_rows :=
  ⟨by decide,
    (run_collapse_invariant c4_rows c4_a [c4_b] (by decide)).2.2.2.1⟩

theorem add_to_first_zero (l : List Row) : add_to_first 0 l = l := by
  cases l with
  | nil => rfl
  | cons r rest => cases r; simp [add_to_first]

/-- Claim C6: for every maximal same-screen run of the sorted table, the
screen-collapse pass leaves an all-sentinel run completely unchanged,
and in a run with at least one non-sentinel member it deletes exactly
the sentinel members and adds their summed duration to the first
non-sentinel member; the pass is the concatenation of the per-run
results. -/
theorem screen_collapse_behavior (l : List Row) (a : Row) (g : List Row)
    (hg : (a, g) ∈ group_runs same_screen_run (sort_rows l)) :
    collapse_intermediate_screens l =
      (group_runs same_screen_run (sort_rows l)).flatMap
        (fun p => screen_group_process p.1 p.2) ∧
    ((∀ r ∈ a :: g, r.action = not_specified) →
      screen_group_process a g = a :: g) ∧
    ((∃ r ∈ a :: g, r.action ≠ not_specified) →
      screen_group_process a g =
        add_to_first
          (((a :: g).filter (fun r => decide (r.action = not_specified))).map
            Row.duration_seconds).sum
          ((a :: g).filter is_meaningful)) := by
  refine ⟨rfl, ?_, ?_⟩
  · intro hall
    have hmean : (a :: g).filter is_meaningful = [] := by
      rw [List.filter_eq_nil_iff]
      intro r hr
      simp [is_meaningful, hall r hr]
    by_cases hlen : (a :: g).length < 2
    · simp only [screen_group_process]
      rw [if_pos hlen]
    · have hmb : ((a :: g).filter is_meaningful).isEmpty = true := by
        rw [hmean]; rfl
      simp only [screen_group_process]
      rw [if_neg hlen, hmb, Bool.or_true]
      rfl
  · intro hex
    rcases hex with ⟨r0, hr0, hr0m⟩
    have hr0mean : is_meaningful r0 = true := by
      simp [is_meaningful, hr0m]
    have hmne : (a :: g).filter is_meaningful ≠ [] := by
      intro hnil
      have := List.filter_eq_nil_iff.mp hnil r0 hr0
      rw [hr0mean] at this
      exact this rfl
    by_cases hlen : (a :: g).length < 2
    · have hg0 : g = [] := by
        cases g with
        | nil => rfl
        | cons b g2 =>
          simp only [List.length_cons] at hlen
          exact absurd hlen (by omega)
      subst hg0
      have ham : a.action ≠ not_specified := by
        rcases List.mem_cons.mp hr0 with h1 | h1
        · rw [← h1]; exact hr0m
        · cases h1
      simp [screen_group_process, add_to_first, is_meaningful, ham]
    · by_cases hsent : (a :: g).filter
          (fun r => decide (r.action = not_specified)) = []
      · have hmeanfull : (a :: g).filter is_meaningful = a :: g := by
          rw [List.filter_eq_self]
          intro r hr
          have := List.filter_eq_nil_iff.mp hsent r hr
          simp only [decide_eq_true_eq] at this
          simp [is_meaningful, this]
        have hse : ((a :: g).filter
            (fun r => decide (r.action = not_specified))).isEmpty = true := by
          rw [hsent]; rfl
        rw [hsent, hmeanfull]
        simp only [List.map_nil, List.sum_nil, add_to_first_zero]
        simp only [screen_group_process]
        rw [if_neg hlen, hse, Bool.true_or]
        rfl
      · have hsb : ((a :: g).filter
            (fun r => decide (r.action = not_specified))).isEmpty = false := by
          cases hf : (a :: g).filter (fun r => decide (r.action = not_specified)) with
          | nil => exact absurd hf hsent
          | cons x xs => rfl
        have hmb : ((a :: g).filter is_meaningful).isEmpty = false := by
          cases hf : (a :: g).filter is_meaningful with
          | nil => exact absurd hf hmne
          | cons x xs => rfl
        simp only [screen_group_process]
        rw [if_neg hlen, hsb, hmb, Bool.or_self]
        rfl

/-- Witness for C2 at the concrete scenario 10:00:00, 10:00:05, 10:00:12:
the computed durations are [5, 7, 0] and the conservation statement holds. -/
theorem calculate_event_duration_conservation_witness :
    (calculate_event_duration (c2_head :: c2_tail)).map Row.duration_seconds =
      [5, 7, 0] ∧
    (∃ b bs, calculate_event_duration (c2_head :: c2_tail) = b :: bs ∧
      (b :: bs).map Row.event_time = (c2_head :: c2_tail).map Row.event_time ∧
      List.Chain' (fun x y =>
        x.duration_seconds = (y.event_time : Int) - (x.event_time : Int))
        (b :: bs) ∧
      (last_row b bs).duration_seconds = 0 ∧
      ((b :: bs).map Row.duration_seconds).sum =
        ((last_row c2_head c2_tail).event_time : Int) -
          (c2_head.event_time : Int)) :=
  ⟨by decide,
    calculate_event_duration_conservation 1 c2_head c2_tail (by decide)
      (List.chain'_cons.mpr ⟨by decide,
        List.chain'_cons.mpr ⟨by decide, List.chain'_singleton _⟩⟩)⟩

/-- Witness for C6 at a concrete run: two sentinel rows followed by one
meaningful row on the same screen form one screen group; the pass keeps
only the meaningful row and folds the sentinel durations into it. -/
theorem screen_collapse_behavior_witness :
    ((c6_a, [c6_b, c6_c]) ∈ group_runs same_screen_run (sort_rows c6_rows)) ∧
    screen_group_process c6_a [c6_b, c6_c] =
      add_to_first
        (((c6_a :: [c6_b, c6_c]).filter
          (fun r => decide (r.action = not_specified))).map
            Row.duration_seconds).sum
        ((c6_a :: [c6_b, c6_c]).filter is_meaningful) ∧
    screen_group_process c6_a [c6_b, c6_c] =
      [{ c6_c with duration_seconds := 18 }] :=
  ⟨by decide,
    (screen_collapse_behavior c6_rows c6_a [c6_b, c6_c] (by decide)).2.2
      (by decide),
    by decide⟩

theorem dict_last_isSome {β : Type}
    (entries : List ((String × String × String) × β))
    (k : String × String × String) :
    (dict_last entries k).isSome = true ↔ ∃ e ∈ entries, e.1 = k := by
  rw [dict_last]
  constructor
  · intro h
    have hf : (entries.reverse.find? (fun e => decide (e.1 = k))).isSome = true := by
      cases hfind : entries.reverse.find? (fun e => decide (e.1 = k)) with
      | none => rw [hfind] at h; simp at h
      | some v => rfl
    rcases List.find?_isSome.mp hf with ⟨e, he, hek⟩
    exact ⟨e, List.mem_reverse.mp he, of_decide_eq_true hek⟩
  · intro ⟨e, he, hek⟩
    have hf : (entries.reverse.find? (fun e => decide (e.1 = k))).isSome = true :=
      List.find?_isSome.mpr ⟨e, List.mem_reverse.mpr he, decide_eq_true hek⟩
    rcases Option.isSome_iff_exists.mp hf with ⟨v, hv⟩
    rw [hv]
    rfl

/-- Counterexample to claim C7 as stated: the triple of an action that
appears only in the success_review list of a block is NOT placed into the
block-membership lookup table — action_to_block returns none for it,
the triple only enters the review lookup, and an event carrying it is
excluded from the per-session aggregates of the block (its block cell stays
at the untouched-block defaults). -/
theorem build_action_lookup_misses_success_review :
    action_to_block c7_blocks ("Новая заявка", "Оценка", "Оценка выполнена") =
      none ∧
    review_lookup c7_blocks ("Новая заявка", "Оценка", "Оценка выполнена") =
      some "Создание заявки" ∧
    block_of c7_blocks
      (mk_row 7 1 1 0 "Новая заявка" "Оценка" "Оценка выполнена" 4) = none ∧
    block_metrics c7_blocks
      [mk_row 7 1 1 0 "Новая заявка" "Оценка" "Оценка выполнена" 4] 1
      "Создание заявки" = ⟨0, -1, 0, 0, 0, 0, 0, 0⟩ := by decide

/-- Claim C7 (amended): the lookup construction places every triple of
the four lists regular_actions, cancel_actions, exit_actions and
success_actions into the block-membership table (mapped to some block
with a step); a success_review action enters the review lookup; and the
block-membership table holds exactly the triples coming from those four
lists, so a triple appearing only in success_review lists is absent from
it and from the block aggregates. -/
theorem build_action_lookup_coverage (blocks : List Block) (b : Block)
    (g : ActionGroup) (a : ActionObj) (hb : b ∈ blocks) (hgr : g ∈ b.groups) :
    (a ∈ g.regular_actions ++ g.cancel_actions ++ g.exit_actions ++
        g.success_actions →
      ∃ v, action_to_block blocks (g.screen, g.functional, a.action) = some v) ∧
    (a ∈ g.success_review →
      ∃ w, review_lookup blocks (g.screen, g.functional, a.action) = some w) ∧
    (∀ k : String × String × String, (action_to_block blocks k).isSome = true ↔
      ∃ e ∈ block_entries blocks, e.1 = k) := by
  refine ⟨?_, ?_, fun k => dict_last_isSome (block_entries blocks) k⟩
  · intro ha
    apply Option.isSome_iff_exists.mp
    rw [action_to_block]
    apply (dict_last_isSome (block_entries blocks) _).mpr
    refine ⟨((g.screen, g.functional, a.action), (b.name, a.step.getD 0)), ?_, rfl⟩
    rw [block_entries]
    apply List.mem_flatMap.mpr
    refine ⟨b, hb, ?_⟩
    apply List.mem_flatMap.mpr
    refine ⟨g, hgr, ?_⟩
    exact List.mem_map.mpr ⟨a, ha, rfl⟩
  · intro ha
    apply Option.isSome_iff_exists.mp
    rw [review_lookup]
    apply (dict_last_isSome (review_entries blocks) _).mpr
    refine ⟨((g.screen, g.functional, a.action), b.name), ?_, rfl⟩
    rw [review_entries]
    apply List.mem_flatMap.mpr
    refine ⟨b, hb, ?_⟩
    apply List.mem_flatMap.mpr
    refine ⟨g, hgr, ?_⟩
    exact List.mem_map.mpr ⟨a, ha, rfl⟩

/-- Witness for the amended C7 at the concrete taxonomy: the regular
action is in the membership table, the review action is in the review
lookup. -/
theorem build_action_lookup_coverage_witness :
    (∃ v, action_to_block c7_blocks
      (c7_group.screen, c7_group.functional, c7_regular.action) = some v) ∧
    (∃ w, review_lookup c7_blocks
      (c7_group.screen, c7_group.functional, c7_review.action) = some w) :=
  ⟨(build_action_lookup_coverage c7_blocks c7_block c7_group c7_regular
      (by decide) (by decide)).1 (by decide),
   (build_action_lookup_coverage c7_blocks c7_block c7_group c7_review
      (by decide) (by decide)).2.1 (by decide)⟩

/-- Claim C3: the output of the Block Feature Aggregator has exactly one
row per distinct global session id of the input stream (in ascending
order and without duplicates, a session id appears among the output rows
iff some input event carries it — including sessions none of whose
events map to any block); every row carries one metric record per
taxonomy block (so 8 numeric block metrics per block plus the
whole-session duration, 8×17+1 = 137 numeric features for the 17-block
taxonomy), the whole-session duration is summed over the unfiltered
stream, and a block the session never touches holds the explicit
defaults (0 on every metric, -1 on max_step), never a missing value. -/
theorem funnel_transform_row_completeness (blocks : List Block) (df : List Row) :
    (funnel_transform blocks df).map FeatureRow.global_session_id =
      session_ids df ∧
    (session_ids df).Nodup ∧
    (∀ s : Nat, s ∈ session_ids df ↔ ∃ r ∈ df, r.global_session_id = s) ∧
    (∀ fr ∈ funnel_transform blocks df,
      fr.features.map Prod.fst = blocks.map Block.name ∧
      fr.features.length = blocks.length ∧
      fr.sess_dur_sec = ((df.filter (fun r =>
        decide (r.global_session_id = fr.global_session_id))).map
          Row.duration_seconds).sum ∧
      (∀ b ∈ blocks, block_rows blocks df fr.global_session_id b.name = [] →
        (b.name, (⟨0, -1, 0, 0, 0, 0, 0, 0⟩ : BlockMetrics)) ∈ fr.features) ∧
      (blocks.length = 17 → 8 * fr.features.length + 1 = 137)) := by
  refine ⟨?_, ?_, ?_, ?_⟩
  · rw [funnel_transform, List.map_map]
    show List.map (fun s => s) (session_ids df) = session_ids df
    simp
  · exact (insertion_sort_perm nat_lt _).symm.nodup (List.nodup_dedup _)
  · intro s
    rw [session_ids, mem_insertion_sort, List.mem_dedup, List.mem_map]
  · intro fr hfr
    rcases List.mem_map.mp hfr with ⟨s, hs, hfs⟩
    subst hfs
    refine ⟨?_, ?_, rfl, ?_, ?_⟩
    · show (blocks.map (fun b =>
        (b.name, block_metrics blocks df s b.name))).map Prod.fst =
          blocks.map Block.name
      rw [List.map_map]
      rfl
    · show (blocks.map (fun b =>
        (b.name, block_metrics blocks df s b.name))).length = blocks.length
      rw [List.length_map]
    · intro b hb hempty
      rw [show (feature_row blocks df s).global_session_id = s from rfl]
        at hempty
      have hbm : block_metrics blocks df s b.name =
          ⟨0, -1, 0, 0, 0, 0, 0, 0⟩ := by
        simp only [block_metrics, hempty]
      show (b.name, (⟨0, -1, 0, 0, 0, 0, 0, 0⟩ : BlockMetrics)) ∈
        blocks.map (fun b => (b.name, block_metrics blocks df s b.name))
      rw [← hbm]
      exact List.mem_map.mpr ⟨b, hb, rfl⟩
    · intro h17
      show 8 * (blocks.map (fun b =>
        (b.name, block_metrics blocks df s b.name))).length + 1 = 137
      rw [List.length_map, h17]

/-- Witness for C3 at a concrete stream of two sessions, one of which
touches no block: the output session ids are exactly the distinct input
session ids, and the block cell of the untouched session carries the
defaults. -/
theorem funnel_transform_row_completeness_witness :
    (funnel_transform c7_blocks c3_df).map FeatureRow.global_session_id =
      session_ids c3_df ∧
    session_ids c3_df = [1, 2] ∧
    block_metrics c7_blocks c3_df 2 "Создание заявки" =
      ⟨0, -1, 0, 0, 0, 0, 0, 0⟩ ∧
    block_metrics c7_blocks c3_df 1 "Создание заявки" =
      ⟨1, 1, 0, 0, 4, 0, 0, 0⟩ :=
  ⟨(funnel_transform_row_completeness c7_blocks c3_df).1, by decide, by decide,
    by decide⟩

/-- Claim C8: the Cohort Labeler classifies a device active in month 9
but not 10 as lost only, active in both as stayed only, active in 10
only as new only, and active in neither reference month with all three
flags false (a produced outcome, not an error); the rows are returned
unchanged and every row of a device carries the flags of the device. -/
theorem add_user_cohort_status_classification (df : List CohortEvent)
    (d : Nat) :
    ((9 ∈ user_months df d ∧ 10 ∉ user_months df d) →
      cohort_status df d = (true, false, false)) ∧
    ((9 ∈ user_months df d ∧ 10 ∈ user_months df d) →
      cohort_status df d = (false, true, false)) ∧
    ((9 ∉ user_months df d ∧ 10 ∈ user_months df d) →
      cohort_status df d = (false, false, true)) ∧
    ((9 ∉ user_months df d ∧ 10 ∉ user_months df d) →
      cohort_status df d = (false, false, false)) ∧
    (add_user_cohort_status df).map Prod.fst = df ∧
    (∀ x ∈ add_user_cohort_status df, ∀ y ∈ add_user_cohort_status df,
      x.1.device_id = y.1.device_id → x.2 = y.2) ∧
    (∀ x ∈ add_user_cohort_status df,
      x.2 = cohort_status df x.1.device_id) := by
  refine ⟨?_, ?_, ?_, ?_, ?_, ?_, ?_⟩
  · intro ⟨h9, h10⟩
    simp [cohort_status, h9, h10]
  · intro ⟨h9, h10⟩
    simp [cohort_status, h9, h10]
  · intro ⟨h9, h10⟩
    simp [cohort_status, h9, h10]
  · intro ⟨h9, h10⟩
    simp [cohort_status, h9, h10]
  · rw [add_user_cohort_status, List.map_map]
    show df.map (fun r => r) = df
    simp
  · intro x hx y hy hdev
    rcases List.mem_map.mp hx with ⟨r, _, hxr⟩
    rcases List.mem_map.mp hy with ⟨t, _, hyt⟩
    rw [← hxr, ← hyt]
    show cohort_status df r.device_id = cohort_status df t.device_id
    rw [← hxr, ← hyt] at hdev
    have : r.device_id = t.device_id := hdev
    rw [this]
  · intro x hx
    rcases List.mem_map.mp hx with ⟨r, _, hxr⟩
    rw [← hxr]

/-- Witness for C8 at a concrete table with one device per cohort case
(the only month of device 4 is 8, plus one unparseable timestamp). -/
theorem add_user_cohort_status_classification_witness :
    cohort_status c8_df 1 = (true, false, false) ∧
    cohort_status c8_df 2 = (false, true, false) ∧
    cohort_status c8_df 3 = (false, false, true) ∧
    cohort_status c8_df 4 = (false, false, false) :=
  ⟨(add_user_cohort_status_classification c8_df 1).1 ⟨by decide, by decide⟩,
   (add_user_cohort_status_classification c8_df 2).2.1 ⟨by decide, by decide⟩,
   (add_user_cohort_status_classification c8_df 3).2.2.1
     ⟨by decide, by decide⟩,
   (add_user_cohort_status_classification c8_df 4).2.2.2.1
     ⟨by decide, by decide⟩⟩

/-- Counterexample to claim C9 as stated: on a non-empty table lacking
the device-id column, add_global_session_id does fail, but with the
KeyError raised by the pandas bracket selection of the two key columns,
not with a ValueError. -/
theorem add_global_session_id_keyerror :
    add_global_session_id_run (some ⟨["Экран"], 5⟩) =
      Except.error PdError.keyError ∧
    (Except.error PdError.keyError : Except PdError PDataFrame) ≠
      Except.error PdError.valueError :=
  ⟨rfl, fun h => PdError.noConfusion (Except.error.inj h)⟩

/-- Claim C9 (amended): when the device-id or session-number column is
absent from a loaded non-empty table, add_global_session_id fails with
the KeyError of the pandas column selection (not a ValueError); the
explicit ValueError guard of the method fires only when the table is not
loaded or empty. -/
theorem add_global_session_id_error_behavior (d : PDataFrame)
    (hnz : d.nrows ≠ 0)
    (hmiss : device_col ∉ d.cols ∨ session_col ∉ d.cols) :
    add_global_session_id_run (some d) = Except.error PdError.keyError ∧
    add_global_session_id_run none = Except.error PdError.valueError ∧
    (∀ d2 : PDataFrame, d2.nrows = 0 →
      add_global_session_id_run (some d2) =
        Except.error PdError.valueError) := by
  refine ⟨?_, rfl, ?_⟩
  · have hall : ([device_col, session_col].all
        (fun c => d.cols.contains c)) = false := by
      rcases hmiss with hm | hm
      · simp [hm]
      · simp [hm]
    have hsel : select_columns d [device_col, session_col] =
        Except.error PdError.keyError := by
      rw [select_columns, hall]
      rfl
    simp only [add_global_session_id_run]
    rw [if_neg hnz, hsel]
  · intro d2 h0
    simp only [add_global_session_id_run]
    rw [if_pos h0]

/-- Witness for the amended C9: a concrete loaded non-empty frame without
the two key columns produces the KeyError. -/
theorem add_global_session_id_error_behavior_witness :
    add_global_session_id_run (some ⟨["Экран", "Действие"], 3⟩) =
      Except.error PdError.keyError :=
  (add_global_session_id_error_behavior ⟨["Экран", "Действие"], 3⟩
    (by decide) (Or.inl (by decide))).1

theorem drop_trailing_spec : ∀ l : List Row,
    drop_trailing l = trailing_removal_spec l := by
  intro l
  induction l with
  | nil => rfl
  | cons r rest ih =>
    cases rest with
    | nil =>
      by_cases h : trailing_triple r = true
      · simp [drop_trailing, trailing_removal_spec, with_next, keep_row, h]
      · have h' : trailing_triple r = false := by
          revert h; cases trailing_triple r <;> simp
        simp [drop_trailing, trailing_removal_spec, with_next, keep_row, h']
    | cons s rest2 =>
      have hwn : with_next (r :: s :: rest2) =
          (r, some s) :: with_next (s :: rest2) := rfl
      have hdt : drop_trailing (r :: s :: rest2) =
          (if (!(decide (r.global_session_id = s.global_session_id)) &&
              trailing_triple r) then [] else [r]) ++
            drop_trailing (s :: rest2) := rfl
      have hk : keep_row (r, some s) =
          !(!(decide (r.global_session_id = s.global_session_id)) &&
            trailing_triple r) := rfl
      rw [hdt, ih]
      conv_rhs => rw [trailing_removal_spec, hwn, List.filter_cons, hk]
      cases hC : (!(decide (r.global_session_id = s.global_session_id)) &&
          trailing_triple r) with
      | true => simp [trailing_removal_spec]
      | false => simp [trailing_removal_spec]

/-- Claim C10: on a sorted table, remove_trailing_empty_screens removes
exactly the rows that close their session (no successor row in the same
session) and carry the triple (Еще, Открытие экрана, Не указано), and
nothing else; when no row matches, the table is returned unmodified. -/
theorem remove_trailing_empty_screens_behavior (l : List Row)
    (hs : sorted_by row_lt l) :
    remove_trailing_empty_screens l = trailing_removal_spec l ∧
    ((∀ p ∈ with_next l, keep_row p = true) →
      remove_trailing_empty_screens l = l) := by
  have hid : sort_rows l = l := insertion_sort_of_sorted row_lt l hs
  have hmain : remove_trailing_empty_screens l = trailing_removal_spec l := by
    rw [remove_trailing_empty_screens, hid, drop_trailing_spec]
  refine ⟨hmain, ?_⟩
  intro hall
  rw [hmain, trailing_removal_spec, List.filter_eq_self.mpr hall, with_next]
  refine List.map_fst_zip _ _ ?_
  simp only [List.length_append, List.length_map, List.length_drop,
    List.length_cons, List.length_nil]
  omega

/-- Witness for C10: in a concrete two-session table the final
(Еще, Открытие экрана, Не указано) row of the first session is removed,
while the same triple in non-final position inside the second session
and all other rows survive. -/
theorem remove_trailing_empty_screens_behavior_witness :
    remove_trailing_empty_screens c10_rows = trailing_removal_spec c10_rows ∧
    remove_trailing_empty_screens c10_rows =
      [mk_row 7 1 1 0 "Заявки" "Просмотр списка" "Тап на заявку" 5,
       mk_row 7 2 2 0 "Еще" "Открытие экрана" "Не указано" 3,
       mk_row 7 2 2 3 "Главная" "Открытие экрана" "Тап" 0] :=
  ⟨(remove_trailing_empty_screens_behavior c10_rows (by decide)).1, by decide⟩

/-- Witness for C1 at a concrete table with duplicated and unordered
pairs: the row count is preserved, the distinct pairs are sorted
ascending, and the ids 1..3 are assigned in that order. -/
theorem add_global_session_id_bijection_witness :
    (add_global_session_id c1_rows).length = c1_rows.length ∧
    unique_sessions c1_rows = [(5, 1), (5, 2), (9, 1)] ∧
    (add_global_session_id c1_rows).map Row.global_session_id =
      [1, 1, 2, 3] :=
  ⟨(add_global_session_id_bijection c1_rows).1, by decide, by decide⟩
